import Mathlib

/-!
Verification of the metadata extraction and flattening pipeline of the
Salesforce data-model exporter.

The development shallowly embeds the relevant Python functions:

* `FileService.map_data_type` and `FileService.generate_lucid_csv`
  (src/services/file_service.py) as `map_data_type`, `lucidLoop` and
  `generate_lucid_csv`: the CSV input is a list of rows (lists of string
  cells), the output is a list of structured `LucidRow`s; the Python
  `ValueError` raised by tuple unpacking of an over-long row is modelled by
  `Except PyErr`.
* `SalesforceService.extract_metadata` (src/services/salesforce_service.py)
  as `extract_metadata`, with the describe call abstracted as an oracle
  `String → Except String (List SField)`, the cancellation callback as
  `Option (Nat → Bool)` polled in sequence, and the log sink / warning
  logger / describe calls recorded as traces in an explicit state.
* `SalesforceService.get_access_token` as `get_access_token` over a
  token-endpoint oracle, returning the outcome together with the list of
  attempted login hosts.
* `SalesforceService.get_installed_apps` as `get_installed_apps` over
  oracles for each HTTP sub-step.
-/

/-! ## File service: type mapping and Lucidchart export transform -/

/-- Embeds `FileService.map_data_type`: maps a Salesforce field type to a
tuple (database type, constraint type, referenced-table marker, column
length), defaulting to `("VARCHAR", "", "", "255")`. -/
def map_data_type (data_type : String) : String × String × String × String :=
  if data_type = "id" then ("INT", "Primary Key", "", "11")
  else if data_type = "reference" then ("INT", "Foreign Key", "reference", "11")
  else if data_type = "int" then ("INT", "", "", "11")
  else if data_type = "boolean" then ("INT", "", "", "1")
  else if data_type = "datetime" then ("DATETIME", "", "", "")
  else if data_type = "date" then ("DATE", "", "", "")
  else if data_type = "percent" then ("FLOAT", "", "", "18")
  else if data_type = "string" then ("TEXT", "", "", "")
  else if data_type = "textarea" then ("TEXT", "", "", "")
  else if data_type = "json" then ("TEXT", "", "", "")
  else ("VARCHAR", "", "", "255")

/-- The ten field types listed in the mapping table. -/
def listedTypes : List String :=
  ["id", "reference", "int", "boolean", "datetime", "date", "percent",
   "string", "textarea", "json"]

/-- One row of the Lucidchart export CSV, mirroring the cells appended by
`generate_lucid_csv` (the `ORDINAL_POSITION` cell is the decimal rendering
of `ordinalPosition`). -/
structure LucidRow where
  dbms : String
  tableSchema : String
  tableName : String
  columnName : String
  ordinalPosition : Nat
  dataType : String
  characterMaximumLength : String
  constraintType : String
  referencedTableSchema : String
  referencedTableName : String
  referencedColumnName : String
  comment : String
deriving Repr, DecidableEq

/-- Splits a character list at commas, accumulating the current chunk in
reverse; models the Python `str.split(',')` (always at least one chunk,
empty input giving `[""]`). -/
def splitCommaAux : List Char → List Char → List String
  | [], acc => [String.mk acc.reverse]
  | c :: cs, acc =>
    if c = ',' then String.mk acc.reverse :: splitCommaAux cs []
    else splitCommaAux cs (c :: acc)

/-- The Python expression `s.split(',')`. -/
def pySplitComma (s : String) : List String := splitCommaAux s.data []

/-- Embeds the reference-table computation of `generate_lucid_csv`:
split the `ReferenceTo` cell on commas and take the last entry when more
than one exists, else the sole entry. -/
def parseReferenceTable (s : String) : String :=
  let reference_tables := pySplitComma s
  if reference_tables.length > 1 then reference_tables.getLastD ""
  else reference_tables.headD ""

/-- Python exceptions escaping the embedded file-service code. -/
inductive PyErr where
  | valueError
deriving Repr, DecidableEq

/-- Embeds the per-row loop of `FileService.generate_lucid_csv`. The state
`(last_table, position_index)` mirrors the Python locals; a row with fewer
than 8 cells is skipped, a row with exactly 8 cells is unpacked and
transformed, and a longer row raises `ValueError` (tuple unpacking of 8
names against more values). -/
def lucidLoop (last_table : String) (position_index : Nat) :
    List (List String) → Except PyErr (List LucidRow)
  | [] => .ok []
  | row :: rest =>
    if row.length < 8 then lucidLoop last_table position_index rest
    else
      match row with
      | [table_object, table_field, table_type, _, _, _, table_reference_to, _] =>
        let position_index' := (if last_table ≠ table_object then 0 else position_index) + 1
        let mapped := map_data_type table_type
        let referenced_column := if mapped.2.2.1 = "reference" then "Id" else ""
        let table_reference := parseReferenceTable table_reference_to
        match lucidLoop table_object position_index' rest with
        | .error e => .error e
        | .ok out =>
          .ok ({ dbms := "mysql"
                 tableSchema := "dbo"
                 tableName := table_object
                 columnName := table_field
                 ordinalPosition := position_index'
                 dataType := mapped.1
                 characterMaximumLength := mapped.2.2.2
                 constraintType := mapped.2.1
                 referencedTableSchema := "dbo"
                 referencedTableName := table_reference
                 referencedColumnName := referenced_column
                 comment := "" } :: out)
      | _ => .error .valueError

/-- Embeds `FileService.generate_lucid_csv` on the parsed CSV content: the
header row is dropped (`csv_data[1:]`) and the loop starts from
`last_table = ""`, `position_index = 0`. Only the data rows of the output
are modelled (the constant output header is not). -/
def generate_lucid_csv (csv_data : List (List String)) : Except PyErr (List LucidRow) :=
  lucidLoop "" 0 (csv_data.drop 1)

/-! ## Lemmas about the export transform -/

/-- The static (ordinal-independent) cells of a produced row. -/
def staticPart (r : LucidRow) : String × String × String × String × String × String × String :=
  (r.tableName, r.columnName, r.dataType, r.characterMaximumLength,
   r.constraintType, r.referencedTableName, r.referencedColumnName)

/-- The static cells the transform produces for one 8-cell input row. -/
def rowStatic (row : List String) : String × String × String × String × String × String × String :=
  let mapped := map_data_type (row.getD 2 "")
  (row.getD 0 "", row.getD 1 "", mapped.1, mapped.2.2.2, mapped.2.1,
   parseReferenceTable (row.getD 6 ""),
   if mapped.2.2.1 = "reference" then "Id" else "")

/-- Chain invariant tying the ordinal of each produced row to the loop state. -/
def chainFrom : String → Nat → List LucidRow → Prop
  | _, _, [] => True
  | lt, pi, r :: rest =>
    r.ordinalPosition = (if lt = r.tableName then pi else 0) + 1
      ∧ chainFrom r.tableName r.ordinalPosition rest

theorem lucidLoop_ok_chainFrom (rows : List (List String)) :
    ∀ lt pi out, lucidLoop lt pi rows = .ok out → chainFrom lt pi out := by
  induction rows with
  | nil =>
    intro lt pi out h
    simp only [lucidLoop] at h
    cases h
    trivial
  | cons row rest ih =>
    intro lt pi out h
    simp only [lucidLoop] at h
    by_cases hlen : row.length < 8
    · rw [if_pos hlen] at h
      exact ih lt pi out h
    · rw [if_neg hlen] at h
      match row with
      | [a, b, c, d, e, f, g, hcell] =>
        simp only at h
        set pi' := (if lt ≠ a then 0 else pi) + 1 with hpi'
        cases hrec : lucidLoop a pi' rest with
        | error e => rw [hrec] at h; cases h
        | ok out' =>
          rw [hrec] at h
          cases h
          refine ⟨?_, ih a pi' out' hrec⟩
          simp only [hpi']
          by_cases hlt : lt = a
          · simp [hlt]
          · simp [hlt, Ne.symm hlt]
      | [] => simp at hlen
      | [_] => simp at hlen
      | [_, _] => simp at hlen
      | [_, _, _] => simp at hlen
      | [_, _, _, _] => simp at hlen
      | [_, _, _, _, _] => simp at hlen
      | [_, _, _, _, _, _] => simp at hlen
      | [_, _, _, _, _, _, _] => simp at hlen
      | _ :: _ :: _ :: _ :: _ :: _ :: _ :: _ :: _ :: _ => cases h

/-- Every ordinal in a chain is at least 1. -/
theorem chainFrom_ordinal_pos (out : List LucidRow) :
    ∀ lt pi, chainFrom lt pi out →
      ∀ (j : Nat) (hj : j < out.length), 1 ≤ (out.get ⟨j, hj⟩).ordinalPosition := by
  induction out with
  | nil => intro lt pi _ j hj; simp at hj
  | cons r rest ih =>
    intro lt pi hc j hj
    cases j with
    | zero =>
      have h1 := hc.1
      simp only [List.get]
      omega
    | succ j' =>
      exact ih r.tableName r.ordinalPosition hc.2 j' (by simpa using hj)

/-- Consecutive produced rows: the ordinal of each row after the first is
one more than that of its predecessor when the table name repeats, else 1. -/
theorem chainFrom_get (out : List LucidRow) :
    ∀ lt pi, chainFrom lt pi out →
      ∀ (j : Nat) (hj : j + 1 < out.length),
        (out.get ⟨j + 1, hj⟩).ordinalPosition =
          (if (out.get ⟨j, by omega⟩).tableName = (out.get ⟨j + 1, hj⟩).tableName
           then (out.get ⟨j, by omega⟩).ordinalPosition else 0) + 1 := by
  induction out with
  | nil => intro lt pi _ j hj; simp at hj
  | cons r rest ih =>
    intro lt pi hc j hj
    cases j with
    | zero =>
      match rest, hj, hc with
      | r' :: rest', _, hc => exact hc.2.1
    | succ j' =>
      exact ih r.tableName r.ordinalPosition hc.2 j' (by simpa using hj)

/-- The ordinal-independent cells of the produced rows are in 1:1 order-
preserving correspondence with the input rows of length at least 8. -/
theorem lucidLoop_ok_static (rows : List (List String)) :
    ∀ lt pi out, lucidLoop lt pi rows = .ok out →
      out.map staticPart = (rows.filter (fun r => decide (8 ≤ r.length))).map rowStatic := by
  induction rows with
  | nil =>
    intro lt pi out h
    simp only [lucidLoop] at h
    cases h
    simp
  | cons row rest ih =>
    intro lt pi out h
    simp only [lucidLoop] at h
    by_cases hlen : row.length < 8
    · rw [if_pos hlen] at h
      rw [List.filter_cons_of_neg (by simpa using hlen)]
      exact ih lt pi out h
    · rw [if_neg hlen] at h
      match row with
      | [a, b, c, d, e, f, g, hcell] =>
        simp only at h
        set pi' := (if lt ≠ a then 0 else pi) + 1 with hpi'
        cases hrec : lucidLoop a pi' rest with
        | error e => rw [hrec] at h; cases h
        | ok out' =>
          rw [hrec] at h
          cases h
          rw [List.filter_cons_of_pos (by simp)]
          simp only [List.map_cons]
          refine congrArg₂ _ ?_ (ih a pi' out' hrec)
          simp [staticPart, rowStatic, List.getD]
      | [] => simp at hlen
      | [_] => simp at hlen
      | [_, _] => simp at hlen
      | [_, _, _] => simp at hlen
      | [_, _, _, _] => simp at hlen
      | [_, _, _, _, _] => simp at hlen
      | [_, _, _, _, _, _] => simp at hlen
      | [_, _, _, _, _, _, _] => simp at hlen
      | _ :: _ :: _ :: _ :: _ :: _ :: _ :: _ :: _ :: _ => cases h

/-- When every remaining input row has exactly 8 cells, the loop succeeds. -/
theorem lucidLoop_all_eight_ok (rows : List (List String)) :
    ∀ lt pi, (∀ r ∈ rows, r.length = 8) →
      ∃ out, lucidLoop lt pi rows = .ok out := by
  induction rows with
  | nil => intro lt pi _; exact ⟨[], rfl⟩
  | cons row rest ih =>
    intro lt pi h8
    have hrow : row.length = 8 := h8 row (by simp)
    have hrest : ∀ r ∈ rest, r.length = 8 := fun r hr => h8 r (by simp [hr])
    match row, hrow with
    | [a, b, c, d, e, f, g, hcell], _ =>
      obtain ⟨out', hout'⟩ := ih a ((if lt ≠ a then 0 else pi) + 1) hrest
      simp only [lucidLoop]
      rw [if_neg (by simp)]
      simp only [hout']
      exact ⟨_, rfl⟩

/-- The referenced-table marker produced by `map_data_type` is the string
"reference" exactly for the source type "reference". -/
theorem map_data_type_marker (t : String) :
    (map_data_type t).2.2.1 = "reference" ↔ t = "reference" := by
  unfold map_data_type
  split_ifs <;> simp_all

/-- Pointwise consequence of an equality of mapped lists. -/
theorem map_eq_imp_get {α β γ : Type} (f : α → γ) (g : β → γ) :
    ∀ (l1 : List α) (l2 : List β), l1.map f = l2.map g →
      ∀ (j : Nat) (h1 : j < l1.length),
        ∃ (h2 : j < l2.length), f (l1.get ⟨j, h1⟩) = g (l2.get ⟨j, h2⟩) := by
  intro l1
  induction l1 with
  | nil =>
    intro l2 h j h1
    simp at h1
  | cons x l1' ih =>
    intro l2 h j h1
    cases l2 with
    | nil => simp at h
    | cons y l2' =>
      simp only [List.map_cons, List.cons.injEq] at h
      cases j with
      | zero => exact ⟨by simp, h.1⟩
      | succ j' =>
        obtain ⟨h2, heq⟩ := ih l2' h.2 j' (by simpa using h1)
        exact ⟨by simpa using h2, heq⟩

/-! ## Claim C3: type-mapping totality -/

/-- C3: the type-mapping function is total: every source type not among the
ten listed types yields the default tuple (VARCHAR, "", "", "255"), and each
of the ten listed types yields exactly its tuple from the mapping table
(the first, second and fourth components being the target type, constraint
and length columns of the table). -/
theorem typeMappingTotality :
    (∀ t : String, t ∉ listedTypes → map_data_type t = ("VARCHAR", "", "", "255"))
    ∧ map_data_type "id" = ("INT", "Primary Key", "", "11")
    ∧ map_data_type "reference" = ("INT", "Foreign Key", "reference", "11")
    ∧ map_data_type "int" = ("INT", "", "", "11")
    ∧ map_data_type "boolean" = ("INT", "", "", "1")
    ∧ map_data_type "datetime" = ("DATETIME", "", "", "")
    ∧ map_data_type "date" = ("DATE", "", "", "")
    ∧ map_data_type "percent" = ("FLOAT", "", "", "18")
    ∧ map_data_type "string" = ("TEXT", "", "", "")
    ∧ map_data_type "textarea" = ("TEXT", "", "", "")
    ∧ map_data_type "json" = ("TEXT", "", "", "") := by
  refine ⟨?_, rfl, rfl, rfl, rfl, rfl, rfl, rfl, rfl, rfl, rfl⟩
  intro t ht
  simp only [listedTypes, List.mem_cons, List.not_mem_nil, or_false, not_or] at ht
  obtain ⟨h1, h2, h3, h4, h5, h6, h7, h8, h9, h10⟩ := ht
  simp [map_data_type, h1, h2, h3, h4, h5, h6, h7, h8, h9, h10]

/-- Witness for `typeMappingTotality`: the unlisted type "picklist" maps
to the default tuple. -/
theorem typeMappingTotality_witness :
    "picklist" ∉ listedTypes ∧ map_data_type "picklist" = ("VARCHAR", "", "", "255") :=
  ⟨by decide, typeMappingTotality.1 "picklist" (by decide)⟩

/-! ## Claim C4: ordinal reset -/

/-- C4: in any successfully produced export-row sequence, the ordinal
position is 1 on the first row and, for each later row, is the previous
ordinal plus one when the table name repeats (and then is never 1) and is
exactly 1 when the table name changes; hence the ordinal is 1 exactly on
the first row of each maximal contiguous run sharing a table name. -/
theorem exportOrdinalReset (csv_data : List (List String)) (out : List LucidRow)
    (hout : generate_lucid_csv csv_data = .ok out) :
    (∀ (h0 : 0 < out.length), (out.get ⟨0, h0⟩).ordinalPosition = 1)
    ∧ ∀ (j : Nat) (hj : j + 1 < out.length),
        ((out.get ⟨j + 1, hj⟩).tableName = (out.get ⟨j, by omega⟩).tableName →
          (out.get ⟨j + 1, hj⟩).ordinalPosition
              = (out.get ⟨j, by omega⟩).ordinalPosition + 1
          ∧ (out.get ⟨j + 1, hj⟩).ordinalPosition ≠ 1)
        ∧ ((out.get ⟨j + 1, hj⟩).tableName ≠ (out.get ⟨j, by omega⟩).tableName →
          (out.get ⟨j + 1, hj⟩).ordinalPosition = 1) := by
  have hc := lucidLoop_ok_chainFrom (csv_data.drop 1) "" 0 out hout
  constructor
  · intro h0
    match out, h0, hc with
    | r :: rest, _, hc =>
      have h1 := hc.1
      simp only [List.get]
      rw [h1, ite_self]
  · intro j hj
    have hg := chainFrom_get out "" 0 hc j hj
    have hpos := chainFrom_ordinal_pos out "" 0 hc j (by omega)
    constructor
    · intro heq
      rw [hg, if_pos heq.symm]
      exact ⟨rfl, by omega⟩
    · intro hne
      rw [hg, if_neg (fun hcontra => hne hcontra.symm)]

/-- A concrete three-row input for the ordinal-reset witness. -/
def wCsv4 : List (List String) :=
  [["Object", "Field", "Type", "Length", "Precision", "Scale", "ReferenceTo", "RelationshipName"],
   ["Account", "Id", "id", "18", "0", "0", "N/A", "N/A"],
   ["Account", "Name", "string", "255", "0", "0", "N/A", "N/A"],
   ["Contact", "Id", "id", "18", "0", "0", "N/A", "N/A"]]

/-- The export rows produced from `wCsv4`. -/
def wOut4 : List LucidRow := (generate_lucid_csv wCsv4).toOption.getD []

/-- Witness for `exportOrdinalReset`: on `wCsv4` the ordinals are 1, 2, 1. -/
theorem exportOrdinalReset_witness :
    (wOut4.get ⟨0, by decide⟩).ordinalPosition = 1
    ∧ (wOut4.get ⟨1, by decide⟩).ordinalPosition = 2
    ∧ (wOut4.get ⟨2, by decide⟩).ordinalPosition = 1 := by
  have h := exportOrdinalReset wCsv4 wOut4 (by rfl)
  refine ⟨h.1 (by decide), ?_, ?_⟩
  · exact (((h.2 0 (by decide)).1 (by decide)).1).trans (by decide)
  · exact (h.2 1 (by decide)).2 (by decide)

/-! ## Claim C6: round-trip row count -/

/-- Counterexample for the claim that rows with at least 8 columns are all
processed: a single data row with 9 columns makes the transform raise
`ValueError` (Python unpacks the row into exactly 8 names), so no output
rows are produced at all. -/
theorem exportRoundTrip_counterexample :
    (["Account", "Id", "id", "18", "0", "0", "N/A", "N/A", "extra"] : List String).length = 9
    ∧ generate_lucid_csv
        [["Object", "Field", "Type", "Length", "Precision", "Scale", "ReferenceTo",
          "RelationshipName"],
         ["Account", "Id", "id", "18", "0", "0", "N/A", "N/A", "extra"]]
      = .error .valueError := ⟨rfl, rfl⟩

/-- C6 (amended): for a normalized table whose data rows each have exactly
8 columns, the transform succeeds, produces exactly one output row per data
row, and the set of distinct table names of the output equals the set of
distinct object names (first cells) of the input. -/
theorem exportRoundTrip (csv_data : List (List String))
    (h8 : ∀ row ∈ csv_data.drop 1, row.length = 8) :
    ∃ out, generate_lucid_csv csv_data = .ok out
      ∧ out.length = (csv_data.drop 1).length
      ∧ (out.map (fun r => r.tableName)).toFinset
          = ((csv_data.drop 1).map (fun row => row.getD 0 "")).toFinset := by
  obtain ⟨out, hout⟩ := lucidLoop_all_eight_ok (csv_data.drop 1) "" 0 h8
  have hstatic := lucidLoop_ok_static (csv_data.drop 1) "" 0 out hout
  have hfilter : (csv_data.drop 1).filter (fun r => decide (8 ≤ r.length)) = csv_data.drop 1 :=
    List.filter_eq_self.mpr (fun r hr => by simp [h8 r hr])
  rw [hfilter] at hstatic
  refine ⟨out, hout, ?_, ?_⟩
  · have := congrArg List.length hstatic
    simpa using this
  · have h1 : out.map (fun r => r.tableName)
        = (csv_data.drop 1).map (fun row => row.getD 0 "") := by
      have h2 := congrArg (List.map (fun p :
        String × String × String × String × String × String × String => p.1)) hstatic
      rw [List.map_map, List.map_map] at h2
      have e1 : (fun p : String × String × String × String × String × String × String
          => p.1) ∘ staticPart = fun r : LucidRow => r.tableName := funext fun r => rfl
      have e2 : (fun p : String × String × String × String × String × String × String
          => p.1) ∘ rowStatic = fun row : List String => row.getD 0 "" :=
        funext fun row => rfl
      rw [e1, e2] at h2
      exact h2
    rw [h1]

/-- Witness for `exportRoundTrip`: `wCsv4` has three 8-cell data rows and
yields three output rows over the tables Account and Contact. -/
theorem exportRoundTrip_witness :
    ∃ out, generate_lucid_csv wCsv4 = .ok out
      ∧ out.length = (wCsv4.drop 1).length
      ∧ (out.map (fun r => r.tableName)).toFinset
          = ((wCsv4.drop 1).map (fun row => row.getD 0 "")).toFinset :=
  exportRoundTrip wCsv4 (by decide)

/-! ## Claim C9: referenced table and column cells -/

/-- The data rows the transform keeps (at least 8 cells). -/
def keptRows (csv_data : List (List String)) : List (List String) :=
  (csv_data.drop 1).filter (fun r => decide (8 ≤ r.length))

/-- C9: each export row takes REFERENCED_TABLE_NAME from the ReferenceTo
cell of its source row regardless of constraint type — in particular the
literal "N/A" when the field had no reference targets — and
REFERENCED_COLUMN_NAME is "Id" exactly when the source type is
"reference" and "" otherwise. -/
theorem exportReferencedColumns (csv_data : List (List String)) (out : List LucidRow)
    (hout : generate_lucid_csv csv_data = .ok out) (j : Nat) (hj : j < out.length) :
    ∃ (hj' : j < (keptRows csv_data).length),
      ((out.get ⟨j, hj⟩).referencedTableName
          = parseReferenceTable (((keptRows csv_data).get ⟨j, hj'⟩).getD 6 ""))
      ∧ (((keptRows csv_data).get ⟨j, hj'⟩).getD 6 "" = "N/A" →
          (out.get ⟨j, hj⟩).referencedTableName = "N/A")
      ∧ ((out.get ⟨j, hj⟩).referencedColumnName = "Id"
          ↔ ((keptRows csv_data).get ⟨j, hj'⟩).getD 2 "" = "reference")
      ∧ (((keptRows csv_data).get ⟨j, hj'⟩).getD 2 "" ≠ "reference" →
          (out.get ⟨j, hj⟩).referencedColumnName = "") := by
  have hstatic := lucidLoop_ok_static (csv_data.drop 1) "" 0 out hout
  obtain ⟨hj', heq⟩ :=
    map_eq_imp_get staticPart rowStatic out (keptRows csv_data) hstatic j hj
  refine ⟨hj', ?_⟩
  simp only [staticPart, rowStatic, Prod.mk.injEq] at heq
  obtain ⟨-, -, -, -, -, h6, h7⟩ := heq
  refine ⟨h6, ?_, ?_, ?_⟩
  · intro hna
    rw [h6, hna]
    rfl
  · rw [h7]
    constructor
    · intro hid
      by_contra ht
      rw [if_neg (fun hmark => ht ((map_data_type_marker _).mp hmark))] at hid
      exact absurd hid (by decide)
    · intro ht
      rw [ht]
      rfl
  · intro ht
    rw [h7, if_neg (fun hmark => ht ((map_data_type_marker _).mp hmark))]

/-- A concrete input for the referenced-columns witness: one polymorphic
reference field and one non-reference field without targets. -/
def wCsv9 : List (List String) :=
  [["Object", "Field", "Type", "Length", "Precision", "Scale", "ReferenceTo", "RelationshipName"],
   ["Account", "OwnerId", "reference", "18", "0", "0", "Group,User", "Owner"],
   ["Account", "Name", "string", "255", "0", "0", "N/A", "N/A"]]

/-- The export rows produced from `wCsv9`. -/
def wOut9 : List LucidRow := (generate_lucid_csv wCsv9).toOption.getD []

/-- Witness for `exportReferencedColumns`: the reference row points at the
last target with column Id; the non-reference row carries the literal
"N/A" table and an empty column. -/
theorem exportReferencedColumns_witness :
    (wOut9.get ⟨0, by decide⟩).referencedTableName = "User"
    ∧ (wOut9.get ⟨0, by decide⟩).referencedColumnName = "Id"
    ∧ (wOut9.get ⟨1, by decide⟩).referencedTableName = "N/A"
    ∧ (wOut9.get ⟨1, by decide⟩).referencedColumnName = "" := by
  obtain ⟨hj0, a1, a2, a3, a4⟩ := exportReferencedColumns wCsv9 wOut9 (by rfl) 0 (by decide)
  obtain ⟨hj1, b1, b2, b3, b4⟩ := exportReferencedColumns wCsv9 wOut9 (by rfl) 1 (by decide)
  have a1' : (wOut9.get ⟨0, by decide⟩).referencedTableName
      = parseReferenceTable (((keptRows wCsv9).get ⟨0, by decide⟩).getD 6 "") := a1
  have a3' : ((wOut9.get ⟨0, by decide⟩).referencedColumnName = "Id"
      ↔ ((keptRows wCsv9).get ⟨0, by decide⟩).getD 2 "" = "reference") := a3
  have b2' : (((keptRows wCsv9).get ⟨1, by decide⟩).getD 6 "" = "N/A" →
      (wOut9.get ⟨1, by decide⟩).referencedTableName = "N/A") := b2
  have b4' : (((keptRows wCsv9).get ⟨1, by decide⟩).getD 2 "" ≠ "reference" →
      (wOut9.get ⟨1, by decide⟩).referencedColumnName = "") := b4
  exact ⟨a1'.trans (by decide), a3'.mpr (by decide), b2' (by decide), b4' (by decide)⟩

/-! ## Salesforce service: metadata flattening pipeline -/

/-- A Salesforce object as consumed by `extract_metadata` (only its `name`
key is read; `none` models an absent key). -/
structure SObj where
  name : Option String
deriving Repr, DecidableEq

/-- A Salesforce field as consumed by `extract_metadata`; `name = ""`
models an absent or empty name (both falsy in Python), `none` in the
numeric attributes models an absent key, `ftype` is the `type` key. -/
structure SField where
  name : String
  ftype : Option String
  length : Option Int
  precision : Option Int
  scale : Option Int
  referenceTo : List String
  relationshipName : Option String
deriving Repr, DecidableEq

/-- A normalized metadata row (`Type` is rendered as `FieldType`). -/
structure MetadataRow where
  Object : String
  Field : String
  FieldType : String
  Length : String
  Precision : String
  Scale : String
  ReferenceTo : String
  RelationshipName : String
deriving Repr, DecidableEq

/-- The Python expression `sep.join(l)`. -/
def pyJoin (sep : String) : List String → String
  | [] => ""
  | [s] => s
  | s :: rest => s ++ sep ++ pyJoin sep rest

/-- Embeds the metadata-row construction of `extract_metadata`: numeric
attributes are stringified when present and truthy (non-zero) and rendered
as "N/A" otherwise; `referenceTo` is comma-joined or "N/A" when empty;
`relationshipName` falls back to "N/A" when absent or empty. -/
def buildRow (object_name : String) (field : SField) : MetadataRow :=
  { Object := object_name
    Field := field.name
    FieldType := field.ftype.getD "N/A"
    Length := match field.length with
      | some l => if l ≠ 0 then toString l else "N/A"
      | none => "N/A"
    Precision := match field.precision with
      | some p => if p ≠ 0 then toString p else "N/A"
      | none => "N/A"
    Scale := match field.scale with
      | some sc => if sc ≠ 0 then toString sc else "N/A"
      | none => "N/A"
    ReferenceTo := if field.referenceTo.isEmpty then "N/A"
      else pyJoin "," field.referenceTo
    RelationshipName := match field.relationshipName with
      | some r => if r ≠ "" then r else "N/A"
      | none => "N/A" }

/-- The rows emitted for the fields of one object: fields with an absent
or empty name are skipped. -/
def fieldRows (object_name : String) (fields : List SField) : List MetadataRow :=
  fields.flatMap (fun field =>
    if field.name = "" then [] else [buildRow object_name field])

/-- State of one `extract_metadata` run: the accumulated rows, the
processed-object counter, the number of cancellation polls made, the
messages sent to the log callback, the warnings sent to the module logger,
and the object names passed to the field describer. -/
structure ExtractState where
  rows : List MetadataRow
  processed : Nat
  polls : Nat
  logs : List String
  warns : List String
  described : List String
deriving Repr, DecidableEq

/-- The per-object progress message. -/
def procMsg (i total : Nat) (name : String) : String :=
  "Processing object " ++ toString i ++ "/" ++ toString total ++ ": " ++ name

/-- The final summary message. -/
def completionMsg (processed rows : Nat) : String :=
  "Metadata extraction completed. Processed " ++ toString processed ++
    " objects, extracted " ++ toString rows ++ " field records."

/-- The cancellation message. -/
def terminationMsg : String := "Processing terminated by user."

/-- The per-object warning logged when the describe call fails. -/
def warnMsg (name e : String) : String :=
  "Error processing object " ++ name ++ ": " ++ e

/-- Embeds the object loop of `extract_metadata`. Each iteration first
polls the optional cancellation callback (modelled as a function of the
poll count), then skips objects with a falsy name, then counts and logs the
object, records the describe call, and either appends the rows of the
returned fields or, when the describe oracle fails, records a warning and
continues. -/
def extractLoop (describe : String → Except String (List SField))
    (should_continue : Option (Nat → Bool)) (total : Nat) :
    List SObj → ExtractState → ExtractState
  | [], s => s
  | obj :: rest, s =>
    let stop := match should_continue with
      | some f => !f s.polls
      | none => false
    let s1 := match should_continue with
      | some _ => { s with polls := s.polls + 1 }
      | none => s
    if stop then { s1 with logs := s1.logs ++ [terminationMsg] }
    else
      let object_name := obj.name.getD ""
      if object_name = "" then extractLoop describe should_continue total rest s1
      else
        let s2 := { s1 with
          processed := s1.processed + 1,
          logs := s1.logs ++ [procMsg (s1.processed + 1) total object_name],
          described := s1.described ++ [object_name] }
        match describe object_name with
        | .error e =>
          extractLoop describe should_continue total rest
            { s2 with warns := s2.warns ++ [warnMsg object_name e] }
        | .ok fields =>
          extractLoop describe should_continue total rest
            { s2 with rows := s2.rows ++ fieldRows object_name fields }

/-- The namespace filter is applied when the namespace argument is present,
truthy, truthy after stripping, and not the sentinel "all". -/
def nsFilterActive (ns : Option String) : Bool :=
  match ns with
  | none => false
  | some p => p != "" && p.trim != "" && p != "all"

/-- The objects retained by the namespace filter. -/
def filteredObjects (objects : List SObj) (ns : Option String) : List SObj :=
  if nsFilterActive ns then
    objects.filter (fun o => (o.name.getD "").startsWith ((ns.getD "").trim ++ "__"))
  else objects

/-- The log messages emitted by the filter step before the object loop. -/
def filterLogs (objects : List SObj) (ns : Option String) : List String :=
  if nsFilterActive ns then
    let p := (ns.getD "").trim
    let filtered := filteredObjects objects ns
    ["Filtering objects by app namespace \x27" ++ p ++ "\x27: " ++
        toString filtered.length ++ " objects found"]
      ++ (if filtered.length = 0 then
          ["Warning: No objects found with namespace \x27" ++ p ++
              "\x27. This app may not have custom objects with this namespace.",
           "Available objects sample: " ++
              pyJoin ", " ((objects.take 10).map (fun o => o.name.getD ""))]
        else [])
  else
    [match ns with
     | some p => if p = "all"
        then "No namespace filter applied - extracting all objects"
        else "Extracting all objects (no app filter)"
     | none => "Extracting all objects (no app filter)"]

/-- The state at the start of the object loop. -/
def initialState (logs0 : List String) : ExtractState :=
  { rows := [], processed := 0, polls := 0, logs := logs0, warns := [], described := [] }

/-- Embeds `SalesforceService.extract_metadata`: filter by namespace, run
the object loop, then log the final summary. The returned row list is the
`rows` component of the final state. -/
def extract_metadata (describe : String → Except String (List SField))
    (objects : List SObj) (should_continue : Option (Nat → Bool))
    (namespacePfx : Option String) : ExtractState :=
  let filtered := filteredObjects objects namespacePfx
  let s := extractLoop describe should_continue filtered.length filtered
    (initialState (filterLogs objects namespacePfx))
  { s with logs := s.logs ++ [completionMsg s.processed s.rows.length] }

/-- The rows `extract_metadata` emits for a single object: none when the
name is falsy or the describe call fails, else the rows of its fields. -/
def objRows (describe : String → Except String (List SField)) (obj : SObj) :
    List MetadataRow :=
  let object_name := obj.name.getD ""
  if object_name = "" then []
  else match describe object_name with
    | .error _ => []
    | .ok fields => fieldRows object_name fields

/-! ## Lemmas about the flattening pipeline -/

/-- Without a cancellation callback the loop is a pure fold: it appends the
per-object rows in input order and counts exactly the truthy-named objects. -/
theorem extractLoop_none (describe : String → Except String (List SField)) (total : Nat) :
    ∀ (objs : List SObj) (s : ExtractState),
      (extractLoop describe none total objs s).rows
          = s.rows ++ objs.flatMap (objRows describe)
      ∧ (extractLoop describe none total objs s).processed
          = s.processed + objs.countP (fun o => o.name.getD "" != "") := by
  intro objs
  induction objs with
  | nil => intro s; simp [extractLoop]
  | cons obj rest ih =>
    intro s
    by_cases hname : obj.name.getD "" = ""
    · have hstep : extractLoop describe none total (obj :: rest) s
          = extractLoop describe none total rest s := by
        simp [extractLoop, hname]
      rw [hstep]
      obtain ⟨ihr, ihp⟩ := ih s
      refine ⟨?_, ?_⟩
      · rw [ihr]; simp [objRows, hname]
      · rw [ihp]; simp [List.countP_cons, hname]
    · cases hdesc : describe (obj.name.getD "") with
      | error e =>
        have hstep : extractLoop describe none total (obj :: rest) s
            = extractLoop describe none total rest
              { s with
                processed := s.processed + 1,
                logs := s.logs ++ [procMsg (s.processed + 1) total (obj.name.getD "")],
                warns := s.warns ++ [warnMsg (obj.name.getD "") e],
                described := s.described ++ [obj.name.getD ""] } := by
          simp [extractLoop, hname, hdesc]
        rw [hstep]
        obtain ⟨ihr, ihp⟩ := ih { s with
          processed := s.processed + 1,
          logs := s.logs ++ [procMsg (s.processed + 1) total (obj.name.getD "")],
          warns := s.warns ++ [warnMsg (obj.name.getD "") e],
          described := s.described ++ [obj.name.getD ""] }
        refine ⟨?_, ?_⟩
        · rw [ihr]; simp [objRows, hname, hdesc]
        · rw [ihp]; simp [List.countP_cons, hname]; omega
      | ok fields =>
        have hstep : extractLoop describe none total (obj :: rest) s
            = extractLoop describe none total rest
              { s with
                rows := s.rows ++ fieldRows (obj.name.getD "") fields,
                processed := s.processed + 1,
                logs := s.logs ++ [procMsg (s.processed + 1) total (obj.name.getD "")],
                described := s.described ++ [obj.name.getD ""] } := by
          simp [extractLoop, hname, hdesc]
        rw [hstep]
        obtain ⟨ihr, ihp⟩ := ih { s with
          rows := s.rows ++ fieldRows (obj.name.getD "") fields,
          processed := s.processed + 1,
          logs := s.logs ++ [procMsg (s.processed + 1) total (obj.name.getD "")],
          described := s.described ++ [obj.name.getD ""] }
        refine ⟨?_, ?_⟩
        · rw [ihr]; simp [objRows, hname, hdesc]
        · rw [ihp]; simp [List.countP_cons, hname]; omega

/-- With a cancellation callback that allows the first `i` polls and denies
poll `i + 1`, the loop stops after the first `i` objects: it returns the
rows of those objects only and logs the termination message. -/
theorem extractLoop_stop (describe : String → Except String (List SField))
    (total : Nat) (f : Nat → Bool) :
    ∀ (i : Nat) (objs : List SObj) (s : ExtractState),
      i < objs.length →
      (∀ t, t < i → f (s.polls + t) = true) →
      f (s.polls + i) = false →
      (extractLoop describe (some f) total objs s).rows
          = s.rows ++ (objs.take i).flatMap (objRows describe)
      ∧ terminationMsg ∈ (extractLoop describe (some f) total objs s).logs := by
  intro i
  induction i with
  | zero =>
    intro objs s hlen hpoll hstop
    match objs, hlen with
    | obj :: rest, _ =>
      have hstop' : f s.polls = false := by simpa using hstop
      have hstep : extractLoop describe (some f) total (obj :: rest) s
          = { s with polls := s.polls + 1, logs := s.logs ++ [terminationMsg] } := by
        simp [extractLoop, hstop']
      rw [hstep]
      simp
  | succ i' ih =>
    intro objs s hlen hpoll hstop
    match objs, hlen with
    | obj :: rest, hlen2 =>
      have hcont : f s.polls = true := by simpa using hpoll 0 (Nat.succ_pos _)
      have hlen' : i' < rest.length := by
        simp only [List.length_cons] at hlen2; omega
      have hshift : ∀ (s2 : ExtractState), s2.polls = s.polls + 1 →
          ((∀ t, t < i' → f (s2.polls + t) = true) ∧ f (s2.polls + i') = false) := by
        intro s2 hp
        constructor
        · intro t ht
          have h := hpoll (t + 1) (by omega)
          have e : s2.polls + t = s.polls + (t + 1) := by omega
          rw [e]; exact h
        · have e : s2.polls + i' = s.polls + (i' + 1) := by omega
          rw [e]; exact hstop
      by_cases hname : obj.name.getD "" = ""
      · have hstep : extractLoop describe (some f) total (obj :: rest) s
            = extractLoop describe (some f) total rest { s with polls := s.polls + 1 } := by
          simp [extractLoop, hcont, hname]
        rw [hstep]
        obtain ⟨hsh1, hsh2⟩ := hshift { s with polls := s.polls + 1 } rfl
        obtain ⟨ihr, ihl⟩ := ih rest { s with polls := s.polls + 1 } hlen' hsh1 hsh2
        refine ⟨?_, ihl⟩
        rw [ihr]
        simp [objRows, hname]
      · cases hdesc : describe (obj.name.getD "") with
        | error e =>
          have hstep : extractLoop describe (some f) total (obj :: rest) s
              = extractLoop describe (some f) total rest
                { s with
                  polls := s.polls + 1, processed := s.processed + 1,
                  logs := s.logs ++ [procMsg (s.processed + 1) total (obj.name.getD "")],
                  warns := s.warns ++ [warnMsg (obj.name.getD "") e],
                  described := s.described ++ [obj.name.getD ""] } := by
            simp [extractLoop, hcont, hname, hdesc]
          rw [hstep]
          obtain ⟨hsh1, hsh2⟩ := hshift { s with
            polls := s.polls + 1,
            processed := s.processed + 1,
            logs := s.logs ++ [procMsg (s.processed + 1) total (obj.name.getD "")],
            warns := s.warns ++ [warnMsg (obj.name.getD "") e],
            described := s.described ++ [obj.name.getD ""] } rfl
          obtain ⟨ihr, ihl⟩ := ih rest _ hlen' hsh1 hsh2
          refine ⟨?_, ihl⟩
          rw [ihr]
          simp [objRows, hname, hdesc]
        | ok fields =>
          have hstep : extractLoop describe (some f) total (obj :: rest) s
              = extractLoop describe (some f) total rest
                { s with
                  polls := s.polls + 1,
                  rows := s.rows ++ fieldRows (obj.name.getD "") fields,
                  processed := s.processed + 1,
                  logs := s.logs ++ [procMsg (s.processed + 1) total (obj.name.getD "")],
                  described := s.described ++ [obj.name.getD ""] } := by
            simp [extractLoop, hcont, hname, hdesc]
          rw [hstep]
          obtain ⟨hsh1, hsh2⟩ := hshift { s with
            polls := s.polls + 1,
            rows := s.rows ++ fieldRows (obj.name.getD "") fields,
            processed := s.processed + 1,
            logs := s.logs ++ [procMsg (s.processed + 1) total (obj.name.getD "")],
            described := s.described ++ [obj.name.getD ""] } rfl
          obtain ⟨ihr, ihl⟩ := ih rest _ hlen' hsh1 hsh2
          refine ⟨?_, ihl⟩
          rw [ihr]
          simp [objRows, hname, hdesc]

/-- When every field has a truthy name, the per-object rows are exactly one
row per field. -/
theorem fieldRows_all_named (object_name : String) (fields : List SField)
    (h : ∀ fl ∈ fields, fl.name ≠ "") :
    fieldRows object_name fields = fields.map (buildRow object_name) := by
  induction fields with
  | nil => rfl
  | cons fl rest ih =>
    simp only [fieldRows, List.flatMap_cons] at ih ⊢
    rw [if_neg (h fl (by simp)), ih (fun x hx => h x (by simp [hx]))]
    rfl

/-- Rewrites a flat map over a list as a flat map over its index range. -/
theorem flatMap_eq_range {α β : Type} (h : α → List β) :
    ∀ (l : List α) (g : Nat → List β),
      (∀ (j : Nat) (hj : j < l.length), h (l.get ⟨j, hj⟩) = g j) →
      l.flatMap h = (List.range l.length).flatMap g := by
  intro l
  induction l with
  | nil => intro g _; simp
  | cons x l' ih =>
    intro g hg
    rw [List.length_cons, List.range_succ_eq_map, List.flatMap_cons, List.flatMap_cons]
    have h0 := hg 0 (by simp)
    rw [show h x = g 0 from h0]
    have : (List.map Nat.succ (List.range l'.length)).flatMap g
        = (List.range l'.length).flatMap (fun j => g (j + 1)) := by
      rw [List.flatMap_map]
    rw [this]
    rw [ih (fun j => g (j + 1)) (fun j hj => hg (j + 1) (by simpa using hj))]

/-- Positional `getD` agrees with `get` inside the list. -/
theorem getD_eq_get {α : Type} (d : α) :
    ∀ (l : List α) (j : Nat) (hj : j < l.length), l.getD j d = l.get ⟨j, hj⟩ := by
  intro l
  induction l with
  | nil => intro j hj; simp at hj
  | cons x xs ih =>
    intro j hj
    cases j with
    | zero => rfl
    | succ j' => exact ih j' (by simpa using hj)

/-- The name of the object at position `j` (empty when absent). -/
def nameAt (objs : List SObj) (j : Nat) : String :=
  (objs.getD j { name := none }).name.getD ""

theorem nameAt_get (objs : List SObj) (j : Nat) (hj : j < objs.length) :
    nameAt objs j = (objs.get ⟨j, hj⟩).name.getD "" := by
  unfold nameAt
  rw [getD_eq_get _ objs j hj]

/-! ## Claim C1: partial-failure resilience -/

/-- C1: with N truthy-named objects whose describe call fails exactly for
object k (and succeeds with truthy-named fields elsewhere), the run
propagates no exception, returns one row per field of every object except
k in order, counts all N objects as processed, and its final log message
is the summary reporting N processed objects and the total field count of
all objects except k. -/
theorem extractPartialFailure (describe : String → Except String (List SField))
    (objs : List SObj) (k : Nat) (flds : Nat → List SField) (e : String)
    (hk : k < objs.length)
    (hnames : ∀ o ∈ objs, o.name.getD "" ≠ "")
    (herr : describe (nameAt objs k) = .error e)
    (hok : ∀ (j : Nat), j < objs.length → j ≠ k → describe (nameAt objs j) = .ok (flds j))
    (hfnames : ∀ (j : Nat), j < objs.length → j ≠ k → ∀ fl ∈ flds j, fl.name ≠ "") :
    (extract_metadata describe objs none none).rows
        = (List.range objs.length).flatMap
            (fun j => if j = k then []
              else (flds j).map (buildRow (nameAt objs j)))
    ∧ (extract_metadata describe objs none none).processed = objs.length
    ∧ (extract_metadata describe objs none none).logs.getLast?
        = some (completionMsg objs.length
            (((List.range objs.length).map
                (fun j => if j = k then 0 else (flds j).length)).sum)) := by
  obtain ⟨hrows, hproc⟩ :=
    extractLoop_none describe objs.length objs (initialState (filterLogs objs none))
  have hcount : objs.countP (fun o => o.name.getD "" != "") = objs.length :=
    List.countP_eq_length.mpr (fun o ho => by simpa using hnames o ho)
  have hobjRows : ∀ (j : Nat) (hj : j < objs.length),
      objRows describe (objs.get ⟨j, hj⟩)
        = if j = k then [] else (flds j).map (buildRow (nameAt objs j)) := by
    intro j hj
    have hname := hnames (objs.get ⟨j, hj⟩) (objs.get_mem _ _)
    by_cases hjk : j = k
    · subst hjk
      rw [if_pos rfl]
      simp only [objRows]
      rw [if_neg hname, ← nameAt_get objs j hj, herr]
    · rw [if_neg hjk]
      simp only [objRows]
      rw [if_neg hname, ← nameAt_get objs j hj, hok j hj hjk]
      exact fieldRows_all_named _ _ (hfnames j hj hjk)
  have hrange : objs.flatMap (objRows describe)
      = (List.range objs.length).flatMap
          (fun j => if j = k then [] else (flds j).map (buildRow (nameAt objs j))) :=
    flatMap_eq_range (objRows describe) objs _ hobjRows
  have hrows' : (extract_metadata describe objs none none).rows
      = (List.range objs.length).flatMap
          (fun j => if j = k then [] else (flds j).map (buildRow (nameAt objs j))) := by
    have hr : (extract_metadata describe objs none none).rows
        = (extractLoop describe none objs.length objs
            (initialState (filterLogs objs none))).rows := rfl
    rw [hr, hrows]
    simpa [initialState] using hrange
  have hproc' : (extract_metadata describe objs none none).processed = objs.length := by
    have hp : (extract_metadata describe objs none none).processed
        = (extractLoop describe none objs.length objs
            (initialState (filterLogs objs none))).processed := rfl
    rw [hp, hproc, hcount]
    simp [initialState]
  refine ⟨hrows', hproc', ?_⟩
  have hl : (extract_metadata describe objs none none).logs
      = (extractLoop describe none objs.length objs
            (initialState (filterLogs objs none))).logs
        ++ [completionMsg (extract_metadata describe objs none none).processed
              (extract_metadata describe objs none none).rows.length] := rfl
  rw [hl, List.getLast?_concat]
  congr 1
  rw [hproc']
  congr 1
  rw [hrows', List.length_flatMap]
  congr 1
  apply List.map_congr_left
  intro j hj
  by_cases hjk : j = k <;> simp [hjk]

/-- An id field used by the witnesses. -/
def wIdField : SField :=
  { name := "Id", ftype := some "id", length := some 18, precision := none,
    scale := none, referenceTo := [], relationshipName := none }

/-- A plain string field used by the witnesses. -/
def wNameField : SField :=
  { name := "Name", ftype := some "string", length := some 255, precision := none,
    scale := none, referenceTo := [], relationshipName := none }

/-- A describe oracle for the witnesses below: object B fails, all other
objects succeed. -/
def wDescribe1 : String → Except String (List SField) := fun n =>
  if n = "A" then .ok [wIdField]
  else if n = "B" then .error "boom"
  else .ok [wIdField, wNameField]

/-- The field lists returned by `wDescribe1` for the three witness objects. -/
def wFlds1 : Nat → List SField := fun j =>
  if j = 0 then [wIdField] else [wIdField, wNameField]

/-- Witness for `extractPartialFailure`: three objects, the middle one
failing; 3 processed, 3 rows from the other two. -/
theorem extractPartialFailure_witness :
    (extract_metadata wDescribe1 [⟨some "A"⟩, ⟨some "B"⟩, ⟨some "C"⟩] none none).rows
        = (List.range 3).flatMap
            (fun j => if j = 1 then []
              else (wFlds1 j).map (buildRow (nameAt [⟨some "A"⟩, ⟨some "B"⟩, ⟨some "C"⟩] j)))
    ∧ (extract_metadata wDescribe1 [⟨some "A"⟩, ⟨some "B"⟩, ⟨some "C"⟩] none none).processed = 3
    ∧ (extract_metadata wDescribe1 [⟨some "A"⟩, ⟨some "B"⟩, ⟨some "C"⟩] none none).logs.getLast?
        = some (completionMsg 3
            (((List.range 3).map (fun j => if j = 1 then 0 else (wFlds1 j).length)).sum)) :=
  extractPartialFailure wDescribe1 [⟨some "A"⟩, ⟨some "B"⟩, ⟨some "C"⟩] 1 wFlds1 "boom"
    (by decide) (by decide) rfl
    (fun j hj hjk => by
      have hj3 : j < 3 := by simpa using hj
      interval_cases j
      · rfl
      · exact absurd rfl hjk
      · rfl)
    (fun j hj hjk => by
      have hj3 : j < 3 := by simpa using hj
      interval_cases j <;> decide)

/-! ## Claim C2: cancellation preserves partial results -/

/-- C2: when the cancellation poll allows the first i iterations and stops
at iteration i + 1 (1 ≤ i < N), the run raises no exception, returns
exactly the rows emitted for the first i objects — none from the rest —
and logs the termination message. -/
theorem extractCancellation (describe : String → Except String (List SField))
    (objs : List SObj) (f : Nat → Bool) (i : Nat)
    (h1 : 1 ≤ i) (h2 : i < objs.length)
    (hpoll : ∀ t, t < i → f t = true) (hstop : f i = false) :
    (extract_metadata describe objs (some f) none).rows
        = (objs.take i).flatMap (objRows describe)
    ∧ terminationMsg ∈ (extract_metadata describe objs (some f) none).logs := by
  obtain ⟨hrows, hlog⟩ := extractLoop_stop describe objs.length f i objs
      (initialState (filterLogs objs none)) h2
      (fun t ht => by simpa [initialState] using hpoll t ht)
      (by simpa [initialState] using hstop)
  constructor
  · have hr : (extract_metadata describe objs (some f) none).rows
        = (extractLoop describe (some f) objs.length objs
            (initialState (filterLogs objs none))).rows := rfl
    rw [hr, hrows]
    rfl
  · have hl : (extract_metadata describe objs (some f) none).logs
        = (extractLoop describe (some f) objs.length objs
            (initialState (filterLogs objs none))).logs
          ++ [completionMsg (extract_metadata describe objs (some f) none).processed
                (extract_metadata describe objs (some f) none).rows.length] := rfl
    rw [hl]
    exact List.mem_append_left _ hlog

/-- Witness for `extractCancellation`: two objects, the poll stops at the
second iteration; only the rows of the first object survive. -/
theorem extractCancellation_witness :
    (extract_metadata wDescribe1 [⟨some "A"⟩, ⟨some "C"⟩] (some (fun t => t == 0)) none).rows
        = ([⟨some "A"⟩, ⟨some "C"⟩].take 1).flatMap (objRows wDescribe1)
    ∧ terminationMsg ∈ (extract_metadata wDescribe1 [⟨some "A"⟩, ⟨some "C"⟩]
        (some (fun t => t == 0)) none).logs :=
  extractCancellation wDescribe1 [⟨some "A"⟩, ⟨some "C"⟩] (fun t => t == 0) 1
    (by decide) (by decide)
    (fun t ht => by simpa using Nat.lt_one_iff.mp ht)
    (by decide)

/-! ## Claim C10: silent skipping of falsy names -/

/-- C10: an object with an absent or empty name is skipped entirely — the
loop state (rows, processed counter, log-callback trace, warning trace and
describe-call trace) is exactly as if the object were not there — and a
field with an absent or empty name contributes no metadata row; neither
case raises or logs anything. -/
theorem emptyNameSkips (describe : String → Except String (List SField))
    (total : Nat) (obj : SObj) (rest : List SObj) (s : ExtractState)
    (object_name : String) (field : SField) (fields : List SField)
    (hobj : obj.name.getD "" = "") (hfield : field.name = "") :
    extractLoop describe none total (obj :: rest) s
        = extractLoop describe none total rest s
    ∧ fieldRows object_name (field :: fields) = fieldRows object_name fields := by
  constructor
  · simp [extractLoop, hobj]
  · simp [fieldRows, hfield]

/-- A nameless field used by the skipping witness. -/
def wEmptyField : SField :=
  { name := "", ftype := some "string", length := none, precision := none,
    scale := none, referenceTo := [], relationshipName := none }

/-- Witness for `emptyNameSkips` on a nameless object and a nameless field. -/
theorem emptyNameSkips_witness :
    (extractLoop (fun _ => .ok []) none 2 [{ name := none }, { name := some "A" }]
        (initialState [])
      = extractLoop (fun _ => .ok []) none 2 [{ name := some "A" }] (initialState []))
    ∧ fieldRows "Account" [wEmptyField] = fieldRows "Account" [] :=
  emptyNameSkips (fun _ => .ok []) 2 { name := none } [{ name := some "A" }]
    (initialState []) "Account" wEmptyField [] rfl rfl

/-! ## Claim C8: metadata-row rendering -/

/-- C8: in every emitted metadata row, each numeric attribute is rendered
as its decimal string when present and non-zero and as "N/A" when absent
or zero, and the ReferenceTo cell is the comma-joined target list when
non-empty and "N/A" when empty. -/
theorem metadataRowRendering (object_name : String) (field : SField) :
    (∀ l : Int, field.length = some l → l ≠ 0 →
        (buildRow object_name field).Length = toString l)
    ∧ ((field.length = none ∨ field.length = some 0) →
        (buildRow object_name field).Length = "N/A")
    ∧ (∀ p : Int, field.precision = some p → p ≠ 0 →
        (buildRow object_name field).Precision = toString p)
    ∧ ((field.precision = none ∨ field.precision = some 0) →
        (buildRow object_name field).Precision = "N/A")
    ∧ (∀ q : Int, field.scale = some q → q ≠ 0 →
        (buildRow object_name field).Scale = toString q)
    ∧ ((field.scale = none ∨ field.scale = some 0) →
        (buildRow object_name field).Scale = "N/A")
    ∧ (field.referenceTo ≠ [] →
        (buildRow object_name field).ReferenceTo = pyJoin "," field.referenceTo)
    ∧ (field.referenceTo = [] →
        (buildRow object_name field).ReferenceTo = "N/A") := by
  refine ⟨?_, ?_, ?_, ?_, ?_, ?_, ?_, ?_⟩
  · intro l hl hne; simp [buildRow, hl, hne]
  · rintro (hl | hl) <;> simp [buildRow, hl]
  · intro p hp hne; simp [buildRow, hp, hne]
  · rintro (hp | hp) <;> simp [buildRow, hp]
  · intro q hq hne; simp [buildRow, hq, hne]
  · rintro (hq | hq) <;> simp [buildRow, hq]
  · intro h
    obtain ⟨x, xs, hx⟩ := List.exists_cons_of_ne_nil h
    simp [buildRow, hx]
  · intro h; simp [buildRow, h]

/-- A reference field used by the rendering witness. -/
def wField1 : SField :=
  { name := "OwnerId", ftype := some "reference", length := some 18,
    precision := some 0, scale := none, referenceTo := ["Group", "User"],
    relationshipName := some "Owner" }

/-- Witness for `metadataRowRendering` on `wField1`. -/
theorem metadataRowRendering_witness :
    (buildRow "Account" wField1).Length = "18"
    ∧ (buildRow "Account" wField1).Precision = "N/A"
    ∧ (buildRow "Account" wField1).Scale = "N/A"
    ∧ (buildRow "Account" wField1).ReferenceTo = "Group,User" := by
  have h := metadataRowRendering "Account" wField1
  exact ⟨(h.1 18 rfl (by decide)).trans (by decide),
    h.2.2.2.1 (Or.inr rfl),
    h.2.2.2.2.2.1 (Or.inl rfl),
    (h.2.2.2.2.2.2.1 (by decide)).trans (by decide)⟩

/-! ## Salesforce service: password-grant credential resolver -/

/-- Checks whether the pattern is an initial segment of the text. -/
def startsWithChars : List Char → List Char → Bool
  | [], _ => true
  | _ :: _, [] => false
  | p :: ps, c :: cs => p = c && startsWithChars ps cs

/-- Substring containment on character lists. -/
def hasSubstring (pat : List Char) : List Char → Bool
  | [] => pat.isEmpty
  | c :: cs => startsWithChars pat (c :: cs) || hasSubstring pat cs

/-- The Python expression `pat in s`. -/
def pyContains (s pat : String) : Bool := hasSubstring pat.data s.data

/-- The Python expression `s.lower()` (ASCII case folding). -/
def pyLower (s : String) : String := String.mk (s.data.map Char.toLower)

/-- The production login host constant. -/
def SALESFORCE_PRODUCTION_URL : String := "https://login.salesforce.com"

/-- The sandbox login host constant. -/
def SALESFORCE_SANDBOX_URL : String := "https://test.salesforce.com"

/-- Embeds the DEV-org detection of `get_access_token` (applied to the
lowercased instance URL). -/
def is_dev_org (u : String) : Bool :=
  pyContains u "dev-ed" || pyContains u "develop.my.salesforce.com"
    || pyContains u ".develop."

/-- Embeds the sandbox/staging-org detection of `get_access_token`. -/
def is_stg_org (u : String) : Bool :=
  pyContains u "test.salesforce.com" || pyContains u "sandbox" || pyContains u ".cs"

/-- Embeds the candidate login-host list of `get_access_token`:
DEV → production only; sandbox → sandbox then production; else production. -/
def login_urls_to_try (instance_url : String) : List String :=
  let u := pyLower instance_url
  if is_dev_org u then [SALESFORCE_PRODUCTION_URL]
  else if is_stg_org u then [SALESFORCE_SANDBOX_URL, SALESFORCE_PRODUCTION_URL]
  else [SALESFORCE_PRODUCTION_URL]

/-- Outcome of one token-endpoint POST: success, an HTTP error response,
or a transport failure (requests exception). -/
inductive TokenResult where
  | ok (token : String)
  | httpError (status : Nat) (detail : String)
  | netfail (msg : String)

/-- Result of the resolver: a token or an `AuthenticationError` message. -/
inductive AuthOutcome where
  | token (t : String)
  | authError (msg : String)
deriving Repr, DecidableEq

/-- Embeds the error-message assembly at the end of `get_access_token`. -/
def buildAuthMsg (status : Nat) (detail : String) : String :=
  if status = 400 then
    if pyContains (pyLower detail) "invalid_grant"
        || pyContains (pyLower detail) "authentication failure" then
      "Authentication failed: Invalid username or password. If IP restrictions are enabled, you may need to append your security token to your password. Error: "
        ++ detail
    else if pyContains (pyLower detail) "invalid_client_id"
        || pyContains (pyLower detail) "invalid client" then
      "Authentication failed: Invalid Client ID (Consumer Key). Please verify your External Client App Consumer Key is correct. Error: "
        ++ detail
    else
      "Authentication failed: " ++ detail
        ++ ". Please check your credentials and External Client App configuration."
  else if status = 401 then
    "Unauthorized: " ++ detail
      ++ ". Please verify your Client ID, Client Secret, username, and password are correct."
  else
    "Failed to authenticate with Salesforce (Status " ++ toString status ++ "): " ++ detail

/-- Embeds the login-URL loop of `get_access_token` over a token-endpoint
oracle. On success the token is returned; on an HTTP error the loop
continues to the next candidate only when this is not the last candidate
and the status is 400, and otherwise raises with the message built from
the last error; a transport failure raises on the last candidate and is
skipped on earlier ones. The second component records the hosts attempted
in order. -/
def tryLoginUrls (oracle : String → TokenResult) (allUrls : List String) :
    List String → Option (Nat × String) → List String → AuthOutcome × List String
  | [], lastError, attempted =>
    (.authError (buildAuthMsg (lastError.getD (0, "Unknown error")).1
        (lastError.getD (0, "Unknown error")).2), attempted)
  | url :: rest, lastError, attempted =>
    let attempted2 := attempted ++ [url]
    match oracle url with
    | .ok t => (.token t, attempted2)
    | .httpError status detail =>
      if url != allUrls.getLastD "" && status == 400 then
        tryLoginUrls oracle allUrls rest (some (status, detail)) attempted2
      else
        (.authError (buildAuthMsg status detail), attempted2)
    | .netfail m =>
      if url == allUrls.getLastD "" then
        (.authError ("Network error during authentication: " ++ m), attempted2)
      else
        tryLoginUrls oracle allUrls rest lastError attempted2

/-- Embeds `SalesforceService.get_access_token` (password grant): build the
candidate list from the instance URL and try each candidate in order. -/
def get_access_token (oracle : String → TokenResult) (instance_url : String) :
    AuthOutcome × List String :=
  let urls := login_urls_to_try instance_url
  tryLoginUrls oracle urls urls none []

/-- The attempted-hosts trace only grows. -/
theorem tryLoginUrls_attempts_grow (oracle : String → TokenResult) (allUrls : List String) :
    ∀ (urls : List String) (lastError : Option (Nat × String)) (attempted : List String),
      ∃ suffix, (tryLoginUrls oracle allUrls urls lastError attempted).2
        = attempted ++ suffix := by
  intro urls
  induction urls with
  | nil =>
    intro lastError attempted
    exact ⟨[], by simp [tryLoginUrls]⟩
  | cons url rest ih =>
    intro lastError attempted
    cases horacle : oracle url with
    | ok t =>
      refine ⟨[url], ?_⟩
      simp [tryLoginUrls, horacle]
    | httpError status detail =>
      by_cases hcond : (url != allUrls.getLastD "" && status == 400) = true
      · have hstep : tryLoginUrls oracle allUrls (url :: rest) lastError attempted
            = tryLoginUrls oracle allUrls rest (some (status, detail)) (attempted ++ [url]) := by
          simp only [tryLoginUrls, horacle, hcond, if_true]
        rw [hstep]
        obtain ⟨suffix, hsuf⟩ := ih (some (status, detail)) (attempted ++ [url])
        exact ⟨[url] ++ suffix, by rw [hsuf, List.append_assoc]⟩
      · refine ⟨[url], ?_⟩
        simp only [tryLoginUrls, horacle, if_neg hcond]
    | netfail m =>
      by_cases hcond : (url == allUrls.getLastD "") = true
      · refine ⟨[url], ?_⟩
        simp only [tryLoginUrls, horacle, hcond, if_true]
      · have hstep : tryLoginUrls oracle allUrls (url :: rest) lastError attempted
            = tryLoginUrls oracle allUrls rest lastError (attempted ++ [url]) := by
          simp only [tryLoginUrls, horacle, if_neg hcond]
        rw [hstep]
        obtain ⟨suffix, hsuf⟩ := ih lastError (attempted ++ [url])
        exact ⟨[url] ++ suffix, by rw [hsuf, List.append_assoc]⟩

/-- The first candidate is always the first host attempted. -/
theorem tryLoginUrls_attempts_head (oracle : String → TokenResult) (allUrls : List String)
    (url : String) (rest : List String) (lastError : Option (Nat × String))
    (attempted : List String) :
    ∃ suffix, (tryLoginUrls oracle allUrls (url :: rest) lastError attempted).2
      = attempted ++ [url] ++ suffix := by
  cases horacle : oracle url with
  | ok t =>
    refine ⟨[], ?_⟩
    simp [tryLoginUrls, horacle]
  | httpError status detail =>
    by_cases hcond : (url != allUrls.getLastD "" && status == 400) = true
    · have hstep : tryLoginUrls oracle allUrls (url :: rest) lastError attempted
          = tryLoginUrls oracle allUrls rest (some (status, detail)) (attempted ++ [url]) := by
        simp only [tryLoginUrls, horacle, hcond, if_true]
      rw [hstep]
      exact tryLoginUrls_attempts_grow oracle allUrls rest _ _
    · refine ⟨[], ?_⟩
      simp only [tryLoginUrls, horacle, if_neg hcond]
      simp
  | netfail m =>
    by_cases hcond : (url == allUrls.getLastD "") = true
    · refine ⟨[], ?_⟩
      simp only [tryLoginUrls, horacle, hcond, if_true]
      simp
    · have hstep : tryLoginUrls oracle allUrls (url :: rest) lastError attempted
          = tryLoginUrls oracle allUrls rest lastError (attempted ++ [url]) := by
        simp only [tryLoginUrls, horacle, if_neg hcond]
      rw [hstep]
      exact tryLoginUrls_attempts_grow oracle allUrls rest _ _

/-! ## Claim C5: sandbox host fallback order -/

/-- C5: for an instance URL containing "sandbox" and no dev marker, the
password-grant resolver attempts the sandbox host first; if the sandbox
attempt returns HTTP 400 it attempts the production host next; if the
sandbox attempt returns HTTP 401 it raises `AuthenticationError`
immediately and never contacts the production host. -/
theorem sandboxHostFallback (oracle : String → TokenResult) (instance_url : String)
    (d : String)
    (hsb : pyContains (pyLower instance_url) "sandbox" = true)
    (hdev : is_dev_org (pyLower instance_url) = false) :
    (get_access_token oracle instance_url).2.head? = some SALESFORCE_SANDBOX_URL
    ∧ (oracle SALESFORCE_SANDBOX_URL = .httpError 400 d →
        (get_access_token oracle instance_url).2
          = [SALESFORCE_SANDBOX_URL, SALESFORCE_PRODUCTION_URL])
    ∧ (oracle SALESFORCE_SANDBOX_URL = .httpError 401 d →
        (get_access_token oracle instance_url).1 = .authError (buildAuthMsg 401 d)
        ∧ (get_access_token oracle instance_url).2 = [SALESFORCE_SANDBOX_URL]) := by
  have hstg : is_stg_org (pyLower instance_url) = true := by
    simp [is_stg_org, hsb]
  have hurls : login_urls_to_try instance_url
      = [SALESFORCE_SANDBOX_URL, SALESFORCE_PRODUCTION_URL] := by
    simp [login_urls_to_try, hdev, hstg]
  have hget : get_access_token oracle instance_url
      = tryLoginUrls oracle [SALESFORCE_SANDBOX_URL, SALESFORCE_PRODUCTION_URL]
          [SALESFORCE_SANDBOX_URL, SALESFORCE_PRODUCTION_URL] none [] := by
    rw [get_access_token, hurls]
  have hcSB : (SALESFORCE_SANDBOX_URL
      != List.getLastD [SALESFORCE_SANDBOX_URL, SALESFORCE_PRODUCTION_URL] "") = true := by
    decide
  have hcPRne : (SALESFORCE_PRODUCTION_URL
      != List.getLastD [SALESFORCE_SANDBOX_URL, SALESFORCE_PRODUCTION_URL] "") = false := by
    decide
  have hcPReq : (SALESFORCE_PRODUCTION_URL
      == List.getLastD [SALESFORCE_SANDBOX_URL, SALESFORCE_PRODUCTION_URL] "") = true := by
    decide
  refine ⟨?_, ?_, ?_⟩
  · rw [hget]
    obtain ⟨suffix, hsuf⟩ := tryLoginUrls_attempts_head oracle
      [SALESFORCE_SANDBOX_URL, SALESFORCE_PRODUCTION_URL] SALESFORCE_SANDBOX_URL
      [SALESFORCE_PRODUCTION_URL] none []
    rw [hsuf]
    rfl
  · intro h400
    rw [hget]
    have hstep : tryLoginUrls oracle [SALESFORCE_SANDBOX_URL, SALESFORCE_PRODUCTION_URL]
          [SALESFORCE_SANDBOX_URL, SALESFORCE_PRODUCTION_URL] none []
        = tryLoginUrls oracle [SALESFORCE_SANDBOX_URL, SALESFORCE_PRODUCTION_URL]
          [SALESFORCE_PRODUCTION_URL] (some (400, d)) [SALESFORCE_SANDBOX_URL] := by
      simp only [tryLoginUrls, h400, hcSB]
      simp
    rw [hstep]
    cases hpro : oracle SALESFORCE_PRODUCTION_URL with
    | ok t => simp [tryLoginUrls, hpro]
    | httpError st dt => simp [tryLoginUrls, hpro, hcPRne]
    | netfail m => simp [tryLoginUrls, hpro, hcPReq]
  · intro h401
    rw [hget]
    have hstep : tryLoginUrls oracle [SALESFORCE_SANDBOX_URL, SALESFORCE_PRODUCTION_URL]
          [SALESFORCE_SANDBOX_URL, SALESFORCE_PRODUCTION_URL] none []
        = (.authError (buildAuthMsg 401 d), [SALESFORCE_SANDBOX_URL]) := by
      simp only [tryLoginUrls, h401]
      simp
    rw [hstep]
    exact ⟨rfl, rfl⟩

/-- An oracle whose sandbox endpoint answers 400 and whose production
endpoint succeeds. -/
def wOracle400 : String → TokenResult := fun u =>
  if u = SALESFORCE_SANDBOX_URL then .httpError 400 "wrong host" else .ok "tok"

/-- An oracle answering 401 everywhere. -/
def wOracle401 : String → TokenResult := fun _ => .httpError 401 "denied"

/-- Witness for `sandboxHostFallback` on a concrete sandbox URL with the
two oracles. -/
theorem sandboxHostFallback_witness :
    (get_access_token wOracle400 "https://acme.sandbox.my.salesforce.com").2
        = [SALESFORCE_SANDBOX_URL, SALESFORCE_PRODUCTION_URL]
    ∧ (get_access_token wOracle401 "https://acme.sandbox.my.salesforce.com").1
        = .authError (buildAuthMsg 401 "denied")
    ∧ (get_access_token wOracle401 "https://acme.sandbox.my.salesforce.com").2
        = [SALESFORCE_SANDBOX_URL] := by
  have h4 := sandboxHostFallback wOracle400 "https://acme.sandbox.my.salesforce.com"
    "wrong host" (by decide) (by decide)
  have h1 := sandboxHostFallback wOracle401 "https://acme.sandbox.my.salesforce.com"
    "denied" (by decide) (by decide)
  exact ⟨h4.2.1 rfl, (h1.2.2 rfl).1, (h1.2.2 rfl).2⟩

/-! ## Salesforce service: app and namespace resolver -/

/-- Lexicographic comparison of character lists by code point; models the
Python string ordering used by the label-keyed sort of the app list. -/
def charListLe : List Char → List Char → Bool
  | [], _ => true
  | _ :: _, [] => false
  | a :: as, b :: bs =>
    if a.toNat < b.toNat then true
    else if b.toNat < a.toNat then false
    else charListLe as bs

/-- The Python string comparison `s <= t`. -/
def pyStrLe (s t : String) : Bool := charListLe s.data t.data

theorem charListLe_total : ∀ (as bs : List Char),
    charListLe as bs = true ∨ charListLe bs as = true := by
  intro as
  induction as with
  | nil => intro bs; left; rfl
  | cons a as' ih =>
    intro bs
    cases bs with
    | nil => right; rfl
    | cons b bs' =>
      by_cases hab : a.toNat < b.toNat
      · left; simp [charListLe, hab]
      · by_cases hba : b.toNat < a.toNat
        · right; simp [charListLe, hba]
        · rcases ih bs' with h | h
          · left; simp [charListLe, hab, hba, h]
          · right; simp [charListLe, hab, hba, h]

theorem charListLe_trans : ∀ (as bs cs : List Char),
    charListLe as bs = true → charListLe bs cs = true → charListLe as cs = true := by
  intro as
  induction as with
  | nil => intro bs cs _ _; rfl
  | cons a as' ih =>
    intro bs cs h1 h2
    cases bs with
    | nil => simp [charListLe] at h1
    | cons b bs' =>
      cases cs with
      | nil => simp [charListLe] at h2
      | cons c cs' =>
        simp only [charListLe] at h1 h2 ⊢
        by_cases hab : a.toNat < b.toNat
        · by_cases hbc : b.toNat < c.toNat
          · rw [if_pos (by omega)]
          · rw [if_neg hbc] at h2
            by_cases hcb : c.toNat < b.toNat
            · rw [if_pos hcb] at h2
              exact absurd h2 (by simp)
            · rw [if_pos (by omega)]
        · rw [if_neg hab] at h1
          by_cases hba : b.toNat < a.toNat
          · rw [if_pos hba] at h1
            exact absurd h1 (by simp)
          · rw [if_neg hba] at h1
            by_cases hbc : b.toNat < c.toNat
            · rw [if_pos (by omega)]
            · rw [if_neg hbc] at h2
              by_cases hcb : c.toNat < b.toNat
              · rw [if_pos hcb] at h2
                exact absurd h2 (by simp)
              · rw [if_neg hcb] at h2
                rw [if_neg (by omega), if_neg (by omega)]
                exact ih bs' cs' h1 h2

/-- An application entry as assembled by `get_installed_apps`
(`namespacePfx` renders the `namespacePrefix` key). -/
structure SalesforceApp where
  id : String
  name : String
  label : String
  namespacePfx : Option String
  description : String
deriving Repr, DecidableEq

/-- Outcome of one HTTP sub-step: a raised requests exception, a non-2xx
response, or a parsed payload. -/
inductive HttpOutcome (α : Type) where
  | raised (msg : String)
  | notOk (status : Nat) (body : String)
  | ok (val : α)

/-- An app returned by the UI API apps listing (absent keys are `none`). -/
structure UiApp where
  id : Option String
  label : Option String
  name : Option String

/-- A record of the fallback CustomApplication query. -/
structure FallbackRecord where
  id : Option String
  name : Option String
  label : Option String
  namespacePfx : Option String

/-- The SubscriberPackage sub-object of an installed-package record. -/
structure SubscriberPackage where
  namespacePfx : Option String
  name : Option String

/-- A record of the InstalledSubscriberPackage query. -/
structure PackageRecord where
  id : Option String
  pkg : Option SubscriberPackage

/-- The synthetic leading "all objects" entry. -/
def syntheticAllApp : SalesforceApp :=
  { id := "all"
    name := "All Objects"
    label := "All Objects (No Filter)"
    namespacePfx := none
    description := "Extract metadata for all objects in the org" }

/-- Embeds the per-app body of the UI API loop in `get_installed_apps`:
resolve the label and name with their fallbacks, look up the namespace via
the per-app query (tolerating its failure), and append the entry unless an
entry with the same label already exists. -/
def processUiApp (nsLookup : String → HttpOutcome (List (Option String)))
    (apps : List SalesforceApp) (ui_app : UiApp) : List SalesforceApp :=
  let app_id := ui_app.id.getD ""
  let app_label := ui_app.label.getD (ui_app.name.getD "Unknown App")
  let app_name := ui_app.name.getD app_label
  let namespace_ :=
    if app_id != "" then
      match nsLookup app_id with
      | .ok (r :: _) => r
      | _ => none
    else none
  let app_entry : SalesforceApp :=
    { id := if app_id != "" then app_id else app_name
      name := app_name
      label := app_label
      namespacePfx := namespace_
      description := if namespace_.isSome then "Objects from " ++ app_label ++ " app"
        else app_label ++ " (Standard Objects - No Namespace Filter)" }
  apps ++ (if apps.any (fun a => a.label == app_label) then [] else [app_entry])

/-- Embeds the per-record body of the fallback CustomApplication loop. -/
def processFallbackRecord (apps : List SalesforceApp) (rec : FallbackRecord) :
    List SalesforceApp :=
  let app_namespace := rec.namespacePfx
  let app_label := rec.label.getD (rec.name.getD "Unknown App")
  let app_name := rec.name.getD "Unknown"
  let app_entry : SalesforceApp :=
    { id := rec.id.getD ""
      name := app_name
      label := app_label
      namespacePfx := app_namespace
      description := if app_namespace.isSome then "Objects from " ++ app_label ++ " app"
        else app_label ++ " (Standard Objects - No Namespace Filter)" }
  apps ++ (if apps.any (fun a => a.label == app_label) then [] else [app_entry])

/-- Embeds the per-record body of the installed-package loop: packages with
a truthy namespace not already represented are appended. -/
def processPackageRecord (apps : List SalesforceApp) (rec : PackageRecord) :
    List SalesforceApp :=
  let namespace_ := rec.pkg.bind (fun p => p.namespacePfx)
  let package_name := (rec.pkg.bind (fun p => p.name)).getD "Unknown Package"
  apps ++
    (match namespace_ with
     | some ns =>
       if ns != "" then
         if apps.any (fun a => a.namespacePfx == some ns) then []
         else
           [{ id := rec.id.getD ""
              name := ns
              label := package_name ++ " (" ++ ns ++ ")"
              namespacePfx := some ns
              description := "Objects from " ++ package_name ++ " package" }]
       else []
     | none => [])

/-- The fallback CustomApplication step, reached when the UI API response
is non-2xx (a failed or non-2xx fallback query adds nothing). -/
def fallbackStep (fallbackOutcome : HttpOutcome (List FallbackRecord))
    (apps : List SalesforceApp) : List SalesforceApp :=
  match fallbackOutcome with
  | .ok records => records.foldl processFallbackRecord apps
  | _ => apps

/-- The installed-package step (always attempted; failures add nothing). -/
def packageStep (packageOutcome : HttpOutcome (List PackageRecord))
    (apps : List SalesforceApp) : List SalesforceApp :=
  match packageOutcome with
  | .ok records => records.foldl processPackageRecord apps
  | _ => apps

/-- Embeds the final ordering of `get_installed_apps`: the first entry kept
in place, the rest (minus any further copy of the synthetic label) sorted
by label ascending; the sort is stable, like the Python sorted builtin. -/
def finalize : List SalesforceApp → List SalesforceApp
  | [] => []
  | a0 :: rest =>
    a0 :: List.insertionSort (fun x y => pyStrLe x.label y.label = true)
      (rest.filter (fun a => a.label != "All Objects (No Filter)"))

/-- Embeds `SalesforceService.get_installed_apps` over oracles for the four
HTTP sub-steps. A raised exception in the UI API call is caught by the
outer handler, which returns the accumulated entries without sorting; all
other sub-step failures are swallowed where they occur. -/
def get_installed_apps (uiOutcome : HttpOutcome (List UiApp))
    (nsLookup : String → HttpOutcome (List (Option String)))
    (fallbackOutcome : HttpOutcome (List FallbackRecord))
    (packageOutcome : HttpOutcome (List PackageRecord)) : List SalesforceApp :=
  let apps : List SalesforceApp := [syntheticAllApp]
  match uiOutcome with
  | .raised _ => apps
  | .notOk _ _ =>
    finalize (packageStep packageOutcome (fallbackStep fallbackOutcome apps))
  | .ok ui_apps =>
    finalize (packageStep packageOutcome (ui_apps.foldl (processUiApp nsLookup) apps))

/-- A fold whose step only appends entries only appends entries. -/
theorem foldl_extends {β : Type} (step : List SalesforceApp → β → List SalesforceApp)
    (hstep : ∀ acc x, ∃ t, step acc x = acc ++ t) :
    ∀ (l : List β) (acc : List SalesforceApp), ∃ t, l.foldl step acc = acc ++ t := by
  intro l
  induction l with
  | nil => intro acc; exact ⟨[], by simp⟩
  | cons x xs ih =>
    intro acc
    obtain ⟨t1, h1⟩ := hstep acc x
    obtain ⟨t2, h2⟩ := ih (acc ++ t1)
    refine ⟨t1 ++ t2, ?_⟩
    simp only [List.foldl_cons, h1, h2, List.append_assoc]

theorem fallbackStep_extends (fallbackOutcome : HttpOutcome (List FallbackRecord))
    (apps : List SalesforceApp) :
    ∃ t, fallbackStep fallbackOutcome apps = apps ++ t := by
  cases fallbackOutcome with
  | ok records => exact foldl_extends _ (fun acc x => ⟨_, rfl⟩) records apps
  | raised m => exact ⟨[], by simp [fallbackStep]⟩
  | notOk st b => exact ⟨[], by simp [fallbackStep]⟩

theorem packageStep_extends (packageOutcome : HttpOutcome (List PackageRecord))
    (apps : List SalesforceApp) :
    ∃ t, packageStep packageOutcome apps = apps ++ t := by
  cases packageOutcome with
  | ok records => exact foldl_extends _ (fun acc x => ⟨_, rfl⟩) records apps
  | raised m => exact ⟨[], by simp [packageStep]⟩
  | notOk st b => exact ⟨[], by simp [packageStep]⟩

/-! ## Claim C7: app resolver never fails and returns a sorted list -/

/-- C7: whatever the outcome of each HTTP sub-step (UI listing raised or
non-2xx or successful, each per-app namespace lookup, the fallback query
and the package query failing or succeeding independently), the resolver
returns — never raises — a list whose first element is the synthetic "all"
entry and whose remaining elements are sorted by label ascending. -/
theorem appResolverShape (uiOutcome : HttpOutcome (List UiApp))
    (nsLookup : String → HttpOutcome (List (Option String)))
    (fallbackOutcome : HttpOutcome (List FallbackRecord))
    (packageOutcome : HttpOutcome (List PackageRecord)) :
    (get_installed_apps uiOutcome nsLookup fallbackOutcome packageOutcome).head?
        = some syntheticAllApp
    ∧ List.Sorted (fun a b : SalesforceApp => pyStrLe a.label b.label = true)
        (get_installed_apps uiOutcome nsLookup fallbackOutcome packageOutcome).tail := by
  have hsorted : ∀ (l : List SalesforceApp),
      List.Sorted (fun a b : SalesforceApp => pyStrLe a.label b.label = true)
        (List.insertionSort (fun x y => pyStrLe x.label y.label = true) l) := by
    intro l
    have htotal : IsTotal SalesforceApp (fun a b => pyStrLe a.label b.label = true) :=
      ⟨fun a b => charListLe_total a.label.data b.label.data⟩
    have htrans : IsTrans SalesforceApp (fun a b => pyStrLe a.label b.label = true) :=
      ⟨fun a b c h1 h2 => charListLe_trans a.label.data b.label.data c.label.data h1 h2⟩
    exact @List.sorted_insertionSort _ _ _ htotal htrans l
  have hshape : get_installed_apps uiOutcome nsLookup fallbackOutcome packageOutcome
        = [syntheticAllApp]
      ∨ ∃ rest : List SalesforceApp,
        get_installed_apps uiOutcome nsLookup fallbackOutcome packageOutcome
        = syntheticAllApp :: List.insertionSort (fun x y => pyStrLe x.label y.label = true)
            (rest.filter (fun a => a.label != "All Objects (No Filter)")) := by
    cases uiOutcome with
    | raised m => left; rfl
    | notOk st b =>
      right
      obtain ⟨t1, ht1⟩ := fallbackStep_extends fallbackOutcome [syntheticAllApp]
      obtain ⟨t2, ht2⟩ :=
        packageStep_extends packageOutcome (fallbackStep fallbackOutcome [syntheticAllApp])
      refine ⟨t1 ++ t2, ?_⟩
      have hL : get_installed_apps (.notOk st b) nsLookup fallbackOutcome packageOutcome
          = finalize (packageStep packageOutcome
              (fallbackStep fallbackOutcome [syntheticAllApp])) := rfl
      rw [hL, ht2, ht1]
      simp [finalize]
    | ok ui_apps =>
      right
      obtain ⟨t1, ht1⟩ := foldl_extends (processUiApp nsLookup)
        (fun acc x => ⟨_, rfl⟩) ui_apps [syntheticAllApp]
      obtain ⟨t2, ht2⟩ := packageStep_extends packageOutcome
        (ui_apps.foldl (processUiApp nsLookup) [syntheticAllApp])
      refine ⟨t1 ++ t2, ?_⟩
      have hL : get_installed_apps (.ok ui_apps) nsLookup fallbackOutcome packageOutcome
          = finalize (packageStep packageOutcome
              (ui_apps.foldl (processUiApp nsLookup) [syntheticAllApp])) := rfl
      rw [hL, ht2, ht1]
      simp [finalize]
  rcases hshape with h | ⟨rest, h⟩
  · rw [h]
    exact ⟨rfl, by simp⟩
  · rw [h]
    exact ⟨rfl, hsorted _⟩
